import Mathlib

/-!
Verification of `update_vott_assets.py`.

The program re-keys a VoTT project: it locates the `.vott` manifest in a
metadata directory, computes a mapping from each asset's old identifier to the
MD5 hex digest of the asset's new canonical path, renames the per-asset
`*-asset.json` files, and rewrites every file's contents line by line,
replacing old identifiers and the old source directory string.

Strings are modelled as `List Char` (Python `str`), byte strings as `List Nat`
with entries below 256.  All definitions are translated from the source.
-/

/-- Convert a Lean string literal to the `List Char` representation used
throughout this development. -/
def strL (s : String) : List Char := s.data

/-! ### Python `str.replace`

`str.replace(old, new)` scans left to right replacing non-overlapping
occurrences of `old`.  When `old` is empty, Python inserts `new` before every
character and once at the end. -/

/-- Python `str.replace` for an empty pattern: `new` is inserted before every
character of the string and once after its last character. -/
def emptyRep (new : List Char) : List Char → List Char
  | [] => new
  | c :: rest => new ++ c :: emptyRep new rest

/-- Fuel-driven scan of Python `str.replace` for a non-empty pattern `old`:
at each position, if `old` is a prefix of the remaining text it is replaced by
`new` and the scan resumes after the matched text, otherwise the current
character is kept. -/
def replFuel (old new : List Char) : Nat → List Char → List Char
  | 0, s => s
  | _ + 1, [] => []
  | fuel + 1, c :: rest =>
    if old <+: (c :: rest) then
      new ++ replFuel old new fuel (rest.drop (old.length - 1))
    else
      c :: replFuel old new fuel rest

/-- Python `line.replace(old, new)` on `List Char` strings. -/
def replaceAll (old new s : List Char) : List Char :=
  if old = [] then emptyRep new s else replFuel old new s.length s

/-! ### Path Normalizer: `re.sub(' ', '%20', s)` (line 103) -/

/-- Python `re.sub(' ', '%20', s)`: replace every literal space by `%20`
(the pattern is a single character, so this is a character-wise expansion). -/
def npm_ready (s : List Char) : List Char :=
  s.flatMap fun c => if c = ' ' then ['%', '2', '0'] else [c]

/-! ### File Matcher: `get_single_file_with_suffix` (lines 11-42)

The Python function globs `os.path.join(directory, '*{}'.format(suffix))`.
For a literal suffix the glob pattern `*<suffix>` matches exactly the names
that end with the suffix and do not start with a dot (glob's `*` never matches
a leading dot).  The directory is modelled as the list of entry names it
contains. -/

/-- Glob match of the pattern `*<suffix>` against a file name: the name ends
with the (literal) suffix and is not a hidden file (leading `.`). -/
def globMatch (suf name : List Char) : Bool :=
  decide (suf <:+ name) && decide (name.head? ≠ some '.')

/-- The Python `suffix` argument: a string, a list of strings, or a value of
any other type (the function only tests `type(suffix) is list` and
`type(suffix) is str`). -/
inductive SuffixArg where
  | str (s : List Char)
  | list (ls : List (List Char))
  | other

/-- Errors raised by the program (each models a `raise` / uncaught Python
exception, carrying the data interpolated into its message). -/
inductive PyErr where
  /-- "Should have no more than one '{suffix}' file in {directory}". -/
  | ambiguous (suffixArg : SuffixArg) (directory : List Char)
  /-- "No file found with suffix '{suffix}' in {directory}". -/
  | notFound (suffixArg : SuffixArg) (directory : List Char)
  /-- Python `KeyError` / `IndexError`-style lookup failure on the given key. -/
  | keyError (key : List Char)
  /-- Python `IndexError` from `list(...)[0]` on an empty list. -/
  | indexError

/-- The `candidate_files` list built by `get_single_file_with_suffix`:
initialized empty; filled by one glob per listed suffix when the argument is a
list (concatenated, so one file can occur once per matching suffix), by a
single glob when it is a string, and left empty otherwise. -/
def candidate_files (files : List (List Char)) : SuffixArg → List (List Char)
  | .str s => files.filter (globMatch s)
  | .list ls => ls.flatMap fun s => files.filter (globMatch s)
  | .other => []

/-- The function `get_single_file_with_suffix(directory, suffix)` over a modelled directory
listing: more than one candidate raises the ambiguity error, zero candidates
raises the not-found error, otherwise the single candidate is returned. -/
def get_single_file_with_suffix (directory : List Char) (files : List (List Char))
    (suffixArg : SuffixArg) : Except PyErr (List Char) :=
  let cand := candidate_files files suffixArg
  if cand.length > 1 then .error (.ambiguous suffixArg directory)
  else if cand.length = 0 then .error (.notFound suffixArg directory)
  else .ok (cand.headD [])

/-! ### Pass 1: renaming `*-asset.json` files (lines 123-135) -/

/-- Python association-list lookup used to model `old_to_new_ids[key]`. -/
def alookup : List (List Char × List Char) → List Char → Option (List Char)
  | [], _ => none
  | p :: rest, k => if p.1 = k then some p.2 else alookup rest k

/-- Python `old_asset_file.split('-')[0]`: the segment of the file name before its
first `-` (the whole name when no `-` occurs). -/
def idOf (name : List Char) : List Char :=
  name.takeWhile fun c => ¬ c = '-'

/-- Pass 1 over the metadata directory listing: every entry matching the glob
`*-asset.json` has the segment of its name before the first `-` looked up in
the mapping (an absent key is a fatal `KeyError`) and is renamed to
`<new-id>-asset.json`; other entries are untouched. -/
def pass1 (m : List (List Char × List Char)) :
    List (List Char) → Except PyErr (List (List Char))
  | [] => .ok []
  | f :: fs =>
    if globMatch (strL "-asset.json") f then
      match alookup m (idOf f) with
      | some nid => Except.map (fun rest => (nid ++ strL "-asset.json") :: rest) (pass1 m fs)
      | none => .error (.keyError (idOf f))
    else
      Except.map (fun rest => f :: rest) (pass1 m fs)

/-! ### `hashlib.md5(...).hexdigest()`

A complete embedding of MD5 (RFC 1321) over `Nat`, with 32-bit arithmetic
written as explicit `% 4294967296`.  Messages are byte lists (`List Nat`,
entries < 256); the digest is the usual 16-byte little-endian rendering of the
four state words, and `hexdigest` prints each byte as two lowercase hex
characters. -/

/-- Truncation to a 32-bit word. -/
def w32 (n : Nat) : Nat := n % 4294967296

/-- 32-bit modular addition. -/
def wadd (a b : Nat) : Nat := (a + b) % 4294967296

/-- 32-bit bitwise complement (arguments are first truncated to 32 bits). -/
def wnot (a : Nat) : Nat := 4294967295 - a % 4294967296

/-- 32-bit left rotation by `s` bits (for `0 < s < 32`). -/
def rotl (x s : Nat) : Nat :=
  ((x % 4294967296) <<< s) % 4294967296 ||| ((x % 4294967296) >>> (32 - s))

/-- The 64 MD5 sine-derived constants `K[i]`. -/
def md5K : List Nat :=
  [0xd76aa478, 0xe8c7b756, 0x242070db, 0xc1bdceee,
   0xf57c0faf, 0x4787c62a, 0xa8304613, 0xfd469501,
   0x698098d8, 0x8b44f7af, 0xffff5bb1, 0x895cd7be,
   0x6b901122, 0xfd987193, 0xa679438e, 0x49b40821,
   0xf61e2562, 0xc040b340, 0x265e5a51, 0xe9b6c7aa,
   0xd62f105d, 0x02441453, 0xd8a1e681, 0xe7d3fbc8,
   0x21e1cde6, 0xc33707d6, 0xf4d50d87, 0x455a14ed,
   0xa9e3e905, 0xfcefa3f8, 0x676f02d9, 0x8d2a4c8a,
   0xfffa3942, 0x8771f681, 0x6d9d6122, 0xfde5380c,
   0xa4beea44, 0x4bdecfa9, 0xf6bb4b60, 0xbebfbc70,
   0x289b7ec6, 0xeaa127fa, 0xd4ef3085, 0x04881d05,
   0xd9d4d039, 0xe6db99e5, 0x1fa27cf8, 0xc4ac5665,
   0xf4292244, 0x432aff97, 0xab9423a7, 0xfc93a039,
   0x655b59c3, 0x8f0ccc92, 0xffeff47d, 0x85845dd1,
   0x6fa87e4f, 0xfe2ce6e0, 0xa3014314, 0x4e0811a1,
   0xf7537e82, 0xbd3af235, 0x2ad7d2bb, 0xeb86d391]

/-- The 64 MD5 per-round left-rotation amounts `s[i]`. -/
def md5s : List Nat :=
  [7, 12, 17, 22, 7, 12, 17, 22, 7, 12, 17, 22, 7, 12, 17, 22,
   5, 9, 14, 20, 5, 9, 14, 20, 5, 9, 14, 20, 5, 9, 14, 20,
   4, 11, 16, 23, 4, 11, 16, 23, 4, 11, 16, 23, 4, 11, 16, 23,
   6, 10, 15, 21, 6, 10, 15, 21, 6, 10, 15, 21, 6, 10, 15, 21]

/-- The MD5 message-word index `g` for round `i`. -/
def md5g (i : Nat) : Nat :=
  if i < 16 then i
  else if i < 32 then (5 * i + 1) % 16
  else if i < 48 then (3 * i + 5) % 16
  else (7 * i) % 16

/-- The MD5 nonlinear mixing function for round `i`. -/
def md5mix (i b c d : Nat) : Nat :=
  if i < 16 then (b &&& c) ||| (wnot b &&& d)
  else if i < 32 then (d &&& b) ||| (wnot d &&& c)
  else if i < 48 then b ^^^ c ^^^ d
  else c ^^^ (b ||| wnot d)

/-- One MD5 round on the state `(a, b, c, d)` with message words `m`. -/
def md5Step (m : List Nat) (st : Nat × Nat × Nat × Nat) (i : Nat) :
    Nat × Nat × Nat × Nat :=
  let a := st.1
  let b := st.2.1
  let c := st.2.2.1
  let d := st.2.2.2
  let tmp := wadd (wadd (wadd a (md5mix i b c d)) (md5K.getD i 0)) (m.getD (md5g i) 0)
  (d, wadd b (rotl tmp (md5s.getD i 0)), b, c)

/-- Process one 16-word chunk: 64 rounds, then add the round output back into
the incoming state, word by word, modulo `2^32`. -/
def md5Chunk (st : Nat × Nat × Nat × Nat) (m : List Nat) : Nat × Nat × Nat × Nat :=
  let fin := (List.range 64).foldl (md5Step m) st
  (wadd st.1 fin.1, wadd st.2.1 fin.2.1, wadd st.2.2.1 fin.2.2.1,
   wadd st.2.2.2 fin.2.2.2)

/-- The `k` least-significant bytes of `n`, little-endian. -/
def natLE (k n : Nat) : List Nat :=
  (List.range k).map fun i => (n >>> (8 * i)) % 256

/-- MD5 padding: append `0x80`, zero-pad so the length is 56 mod 64, then
append the original length in bits as a 64-bit little-endian quantity. -/
def md5Pad (msg : List Nat) : List Nat :=
  msg ++ [128] ++ List.replicate ((119 - msg.length % 64) % 64) 0
      ++ natLE 8 (8 * msg.length)

/-- Split a byte list into consecutive 64-byte chunks (fuel-driven; the fuel
`l.length` suffices because every step consumes at least one byte). -/
def chunks64 : Nat → List Nat → List (List Nat)
  | 0, _ => []
  | _ + 1, [] => []
  | fuel + 1, l => l.take 64 :: chunks64 fuel (l.drop 64)

/-- Decode a 64-byte chunk into its 16 little-endian 32-bit message words. -/
def toWords : List Nat → List Nat
  | b0 :: b1 :: b2 :: b3 :: rest =>
    (b0 + 256 * (b1 + 256 * (b2 + 256 * b3))) :: toWords rest
  | _ => []

/-- The 16-byte MD5 digest of a byte-list message. -/
def md5Bytes (msg : List Nat) : List Nat :=
  let padded := md5Pad msg
  let fin := (chunks64 padded.length padded).foldl
    (fun st ch => md5Chunk st (toWords ch))
    (0x67452301, 0xefcdab89, 0x98badcfe, 0x10325476)
  natLE 4 fin.1 ++ natLE 4 fin.2.1 ++ natLE 4 fin.2.2.1 ++ natLE 4 fin.2.2.2

/-- The lowercase hex character for a value below 16. -/
def hexDigitChar (n : Nat) : Char :=
  if n < 10 then Char.ofNat (48 + n) else Char.ofNat (87 + n)

/-- Render a byte list as lowercase hex, two characters per byte. -/
def hexOfBytes (bytes : List Nat) : List Char :=
  bytes.flatMap fun b => [hexDigitChar (b / 16 % 16), hexDigitChar (b % 16)]

/-- Python `hashlib.md5(msg).hexdigest()`. -/
def md5hex (msg : List Nat) : List Char := hexOfBytes (md5Bytes msg)

/-- UTF-8 encoding of one Unicode scalar value. -/
def utf8Char (c : Char) : List Nat :=
  let n := c.toNat
  if n < 128 then [n]
  else if n < 2048 then [192 + n / 64, 128 + n % 64]
  else if n < 65536 then [224 + n / 4096, 128 + n / 64 % 64, 128 + n % 64]
  else [240 + n / 262144, 128 + n / 4096 % 64, 128 + n / 64 % 64, 128 + n % 64]

/-- Python `s.encode('utf-8')`. -/
def utf8Encode (s : List Char) : List Nat := s.flatMap utf8Char

/-! ### Identifier Mapper: `map_old_vott_path_and_id_to_new` (lines 44-62) -/

/-- Python `posixpath.join(a, b)`: if `b` is absolute it replaces `a`; otherwise the
separator `/` is inserted unless `a` is empty or already ends with `/`. -/
def posixJoin (a b : List Char) : List Char :=
  if b.head? = some '/' then b
  else if a = [] ∨ a.getLast? = some '/' then a ++ b
  else a ++ '/' :: b

/-- Python dict assignment `d[k] = v` on an insertion-ordered association
list: an existing key is overwritten in place, a new key is appended. -/
def dictInsert (d : List (List Char × List Char)) (k v : List Char) :
    List (List Char × List Char) :=
  if d.any (fun p => p.1 = k) then
    d.map fun p => if p.1 = k then (k, v) else p
  else d ++ [(k, v)]

/-- An asset record of the manifest: the fields the program reads. -/
structure VottAsset where
  id : List Char
  name : List Char
  path : List Char
deriving DecidableEq

/-- The parsed `.vott` manifest: `vott_dict['assets'].values()` in insertion
order (a Python dict keyed by asset id). -/
structure VottDict where
  assets : List VottAsset
deriving DecidableEq

/-- The candidate new path of an asset:
`'file:' + os.path.join(directory_name, asset['name'])` (line 57). -/
def source_asset_path (directory_name name : List Char) : List Char :=
  strL "file:" ++ posixJoin directory_name name

/-- The function `map_old_vott_path_and_id_to_new(vott_dict, directory_name)`: for every
asset, map its old id to the MD5 hexdigest of the UTF-8 encoded candidate new
path (lines 52-62). -/
def map_old_vott_path_and_id_to_new (vott_dict : VottDict)
    (directory_name : List Char) : List (List Char × List Char) :=
  vott_dict.assets.foldl
    (fun d asset =>
      dictInsert d asset.id
        (md5hex (utf8Encode (source_asset_path directory_name asset.name))))
    []

/-! ### Old source directory: `os.path.split(path_value[len('file:'):])[0]`
(lines 113-117) -/

/-- The index of the last `/` in a string (Python `p.rfind('/')`, as an
`Option` instead of `-1`). -/
def lastSlashPos : List Char → Option Nat
  | [] => none
  | c :: rest =>
    match lastSlashPos rest with
    | some k => some (k + 1)
    | none => if c = '/' then some 0 else none

/-- Strip trailing `/` characters (Python `head.rstrip('/')`). -/
def rstripSlash (h : List Char) : List Char :=
  (h.reverse.dropWhile fun c => c = '/').reverse

/-- Python `os.path.split(p)[0]` for POSIX paths: everything up to and including the
last `/`, with trailing slashes stripped unless the head is empty or consists
only of slashes. -/
def posixSplitHead (p : List Char) : List Char :=
  let i := match lastSlashPos p with
    | some k => k + 1
    | none => 0
  let head := p.take i
  if head.any (fun c => ¬ c = '/') then rstripSlash head else head

/-- Line 117: the old source directory, derived from an asset `path` value by
dropping the five characters of `'file:'` and taking the directory component. -/
def old_source_directory (path_value : List Char) : List Char :=
  posixSplitHead (path_value.drop 5)

/-! ### Pass 2: in-place line rewriting (lines 143-159) -/

/-- The identifier-replacement loop of Pass 2 (lines 146-152): for each
mapping entry in order, `line = line.replace(old_id, new_id)`. -/
def replaceIds (old_to_new_ids : List (List Char × List Char))
    (line : List Char) : List Char :=
  old_to_new_ids.foldl (fun l p => replaceAll p.1 p.2 l) line

/-- The full Pass 2 transformation of one line: the identifier loop followed
by `line.replace(old_source_directory, npm_ready_new_source_directory)`
(line 155). -/
def rewriteLine (old_to_new_ids : List (List Char × List Char))
    (old_source_dir npm_new_source_dir line : List Char) : List Char :=
  replaceAll old_source_dir npm_new_source_dir (replaceIds old_to_new_ids line)

/-- Pass 2 over the metadata directory, modelled as the list of regular files'
contents, each a list of lines: every line of every file is rewritten. -/
def pass2 (old_to_new_ids : List (List Char × List Char))
    (old_source_dir npm_new_source_dir : List Char)
    (fileContents : List (List (List Char))) : List (List (List Char)) :=
  fileContents.map fun lines =>
    lines.map (rewriteLine old_to_new_ids old_source_dir npm_new_source_dir)

/-! ### The `main` pipeline (lines 69-159)

The filesystem is abstracted as the metadata directory's entry-name listing
plus the parsed manifest; `mainModel` is the sequence of fallible steps of
`main` up to and including Pass 1, returning the renamed listing together
with the computed mapping and directory strings used by Pass 2.  Any uncaught
Python exception is an `Except.error`. -/

/-- The steps of `main`: canonicalize the new source directory (line 103),
locate the `.vott` file (line 106), read the first asset's `path`
(line 113 — `IndexError` when the manifest has zero assets), derive the old
source directory (line 117), build the identifier mapping (line 120) and
rename the asset files (lines 123-135). -/
def mainModel (new_source_directory target_directory : List Char)
    (files : List (List Char)) (vott_dict : VottDict) :
    Except PyErr (List (List Char) × List (List Char × List Char) × List Char × List Char) := do
  let npm := npm_ready new_source_directory
  let _vott_file ← get_single_file_with_suffix target_directory files (.str (strL ".vott"))
  let path_value ← match vott_dict.assets with
    | [] => .error .indexError
    | a :: _ => .ok a.path
  let old_dir := old_source_directory path_value
  let old_to_new_ids := map_old_vott_path_and_id_to_new vott_dict npm
  let files' ← pass1 old_to_new_ids files
  return (files', old_to_new_ids, old_dir, npm)

/-! ## Shared lemmas -/

/-- The transform `npm_ready` distributes over append. -/
theorem npm_ready_append (a b : List Char) :
    npm_ready (a ++ b) = npm_ready a ++ npm_ready b := by
  simp [npm_ready]

/-- A character that is not a space is left unchanged by `npm_ready`. -/
theorem npm_ready_cons (c : Char) (rest : List Char) :
    npm_ready (c :: rest) =
      (if c = ' ' then ['%', '2', '0'] else [c]) ++ npm_ready rest := by
  simp [npm_ready]

/-- The scan `replFuel` on the empty string returns the empty string. -/
theorem replFuel_nil (old new : List Char) (fuel : Nat) :
    replFuel old new fuel [] = [] := by
  cases fuel <;> rfl

/-- Replacing a whole non-empty string by `t` yields exactly `t`. -/
theorem replaceAll_self (s t : List Char) (h : s ≠ []) :
    replaceAll s t s = t := by
  match s, h with
  | c :: rest, _ =>
    show replaceAll (c :: rest) t (c :: rest) = t
    rw [replaceAll, if_neg (by simp)]
    show replFuel (c :: rest) t (rest.length + 1) (c :: rest) = t
    rw [replFuel, if_pos (List.prefix_refl _)]
    simp [replFuel_nil]

/-! ## Claim C7: idempotence of the path canonicalization -/

/-- C7.  The space-to-`%20` canonicalization (line 103) is idempotent: for
every input string, applying the transform twice produces the same result as
applying it once. -/
theorem npm_ready_idempotent (s : List Char) :
    npm_ready (npm_ready s) = npm_ready s := by
  induction s with
  | nil => rfl
  | cons c rest ih =>
    rw [npm_ready_cons]
    by_cases hc : c = ' '
    · rw [if_pos hc, npm_ready_append, ih]
      rfl
    · rw [if_neg hc, npm_ready_append, ih, npm_ready_cons, if_neg hc]
      rfl

/-! ## Claim C10: non-string, non-list suffix arguments -/

/-- C10.  When the suffix argument of `get_single_file_with_suffix` is of any
type other than a string or a list, the candidate list stays empty and the
call raises the "not found" error naming the suffix argument and the
directory — never a type error or an undefined-variable failure. -/
theorem get_single_file_other_not_found (directory : List Char)
    (files : List (List Char)) :
    candidate_files files .other = [] ∧
    get_single_file_with_suffix directory files .other =
      .error (.notFound .other directory) := by
  exact ⟨rfl, rfl⟩

/-! ## Claim C6: zero-asset manifests are fatal -/

/-- C6.  When the manifest has zero assets, `main` cannot derive the old
source directory: `list(vott_dict['assets'].values())[0]` raises a fatal
`IndexError` (or the earlier manifest lookup itself fails), so the run never
continues to the rewrite passes. -/
theorem mainModel_empty_assets_fails (new_source_directory target_directory : List Char)
    (files : List (List Char)) (vott_dict : VottDict)
    (h : vott_dict.assets = []) :
    ∃ e, mainModel new_source_directory target_directory files vott_dict = .error e := by
  cases hv : get_single_file_with_suffix target_directory files (.str (strL ".vott")) with
  | error e => exact ⟨e, by simp [mainModel, hv, Bind.bind, Except.bind]⟩
  | ok vf => exact ⟨.indexError, by simp [mainModel, hv, h, Bind.bind, Except.bind]⟩

/-- Witness for C6 at a concrete zero-asset manifest. -/
theorem mainModel_empty_assets_fails_witness :
    ∃ e, mainModel (strL "/new") (strL "/meta") [strL "p.vott"] ⟨[]⟩ = .error e :=
  mainModel_empty_assets_fails (strL "/new") (strL "/meta") [strL "p.vott"] ⟨[]⟩ rfl

/-! ## Claim C9: empty old source directory -/

/-- A string without `/` has no last-slash position. -/
theorem lastSlashPos_eq_none (p : List Char) (h : ∀ c ∈ p, c ≠ '/') :
    lastSlashPos p = none := by
  induction p with
  | nil => rfl
  | cons c rest ih =>
    have hr : lastSlashPos rest = none := ih fun d hd => h d (List.mem_cons_of_mem _ hd)
    simp [lastSlashPos, hr, h c (List.mem_cons_self _ _)]

/-- Python `str.replace` with an empty pattern inserts the replacement before
every character and once at the end. -/
theorem emptyRep_eq_flatMap (new s : List Char) :
    emptyRep new s = new ++ s.flatMap fun c => c :: new := by
  induction s with
  | nil => simp [emptyRep]
  | cons c rest ih => simp [emptyRep, ih]

/-- C9.  If the first asset's `path`, after stripping the five characters of
`'file:'`, contains no `/`, then the derived old source directory (line 117)
is the empty string, and Pass 2's directory substitution (line 155) — Python
`line.replace('', new)` — inserts the new source directory string between
every pair of adjacent characters and at both ends of every line of every
file. -/
theorem old_source_directory_empty_inserts_everywhere
    (path_value npm_dir : List Char)
    (h : ∀ c ∈ path_value.drop 5, c ≠ '/') :
    old_source_directory path_value = [] ∧
    (∀ ids line,
      rewriteLine ids (old_source_directory path_value) npm_dir line =
        npm_dir ++ (replaceIds ids line).flatMap fun c => c :: npm_dir) ∧
    (∀ ids fileContents,
      pass2 ids (old_source_directory path_value) npm_dir fileContents =
        fileContents.map fun lines => lines.map fun line =>
          npm_dir ++ (replaceIds ids line).flatMap fun c => c :: npm_dir) := by
  have hempty : old_source_directory path_value = [] := by
    unfold old_source_directory posixSplitHead
    rw [lastSlashPos_eq_none _ h]
    simp
  refine ⟨hempty, fun ids line => ?_, fun ids fileContents => ?_⟩
  · rw [rewriteLine, hempty, replaceAll, if_pos rfl, emptyRep_eq_flatMap]
  · unfold pass2
    congr 1
    funext lines
    congr 1
    funext line
    rw [rewriteLine, hempty, replaceAll, if_pos rfl, emptyRep_eq_flatMap]

/-- Witness for C9: `path = 'file:cat.jpg'` yields an empty old source
directory, and substituting directory `'/n'` into line `'ab'` produces
`'/na/nb/n'`. -/
theorem old_source_directory_empty_witness :
    old_source_directory (strL "file:cat.jpg") = [] ∧
    rewriteLine [] (old_source_directory (strL "file:cat.jpg")) (strL "/n") (strL "ab") =
      strL "/na/nb/n" := by
  have h := old_source_directory_empty_inserts_everywhere
    (strL "file:cat.jpg") (strL "/n") (by decide)
  exact ⟨h.1, by rw [h.2.1]; rfl⟩

/-! ## Claim C8: one file matching several listed suffixes -/

/-- Unfolding the candidate list over a cons of listed suffixes. -/
theorem candidate_files_list_cons (files : List (List Char)) (a : List Char)
    (t : List (List Char)) :
    candidate_files files (.list (a :: t)) =
      files.filter (globMatch a) ++ candidate_files files (.list t) := rfl

/-- A listed suffix that glob-matches `f` contributes at least one candidate. -/
theorem one_le_candidates (f s : List Char) (ls : List (List Char))
    (hs : s ∈ ls) (hm : globMatch s f = true) :
    1 ≤ (candidate_files [f] (.list ls)).length := by
  induction ls with
  | nil => cases hs
  | cons a t ih =>
    rw [candidate_files_list_cons, List.length_append]
    rcases List.mem_cons.mp hs with rfl | hst
    · have : [f].filter (globMatch s) = [f] := by simp [hm]
      rw [this]
      simp
    · have := ih hst
      omega

/-- Two distinct listed suffixes that both glob-match `f` contribute at least
two candidates. -/
theorem two_le_candidates (f s1 s2 : List Char) (ls : List (List Char))
    (h1 : s1 ∈ ls) (h2 : s2 ∈ ls) (hne : s1 ≠ s2)
    (hm1 : globMatch s1 f = true) (hm2 : globMatch s2 f = true) :
    2 ≤ (candidate_files [f] (.list ls)).length := by
  induction ls with
  | nil => cases h1
  | cons a t ih =>
    rw [candidate_files_list_cons, List.length_append]
    rcases List.mem_cons.mp h1 with rfl | h1t
    · have h2t : s2 ∈ t := by
        rcases List.mem_cons.mp h2 with rfl | h2t
        · exact absurd rfl hne
        · exact h2t
      have hfil : [f].filter (globMatch s1) = [f] := by simp [hm1]
      have := one_le_candidates f s2 t h2t hm2
      rw [hfil]
      simp only [List.length_cons, List.length_nil]
      omega
    · rcases List.mem_cons.mp h2 with rfl | h2t
      · have hfil : [f].filter (globMatch s2) = [f] := by simp [hm2]
        have := one_le_candidates f s1 t h1t hm1
        rw [hfil]
        simp only [List.length_cons, List.length_nil]
        omega
      · have := ih h1t h2t
        omega

/-- C8.  A single file whose name glob-matches more than one of the listed
suffixes is collected once per matching suffix, so a directory containing
exactly that one file raises the "ambiguous" (more-than-one) error even
though only one distinct file exists. -/
theorem list_suffixes_double_count (directory f s1 s2 : List Char)
    (ls : List (List Char)) (h1 : s1 ∈ ls) (h2 : s2 ∈ ls) (hne : s1 ≠ s2)
    (hm1 : globMatch s1 f = true) (hm2 : globMatch s2 f = true) :
    2 ≤ (candidate_files [f] (.list ls)).length ∧
    get_single_file_with_suffix directory [f] (.list ls) =
      .error (.ambiguous (.list ls) directory) := by
  have hlen := two_le_candidates f s1 s2 ls h1 h2 hne hm1 hm2
  refine ⟨hlen, ?_⟩
  unfold get_single_file_with_suffix
  rw [if_pos (by omega)]

/-- Witness for C8: the single file `a.json` matches both listed suffixes
`.json` and `n`, so the call fails with the ambiguity error. -/
theorem list_suffixes_double_count_witness :
    get_single_file_with_suffix (strL "/meta") [strL "a.json"]
        (.list [strL ".json", strL "n"]) =
      .error (.ambiguous (.list [strL ".json", strL "n"]) (strL "/meta")) :=
  (list_suffixes_double_count (strL "/meta") (strL "a.json") (strL ".json")
    (strL "n") [strL ".json", strL "n"] (by decide) (by decide) (by decide)
    (by decide) (by decide)).2

/-! ## Claim C4: exactly-one-match contract of the File Matcher -/

/-- C4 counterexample.  With suffix list `['.json', 'n']` and a directory
holding exactly the one file `a.json`, exactly one file has a name ending
with one of the given suffixes, yet the File Matcher raises the "ambiguous"
error instead of returning that file: the single file is collected once per
matching suffix. -/
theorem single_match_still_ambiguous :
    ([strL "a.json"].filter fun f =>
        [strL ".json", strL "n"].any fun s => globMatch s f).length = 1 ∧
    get_single_file_with_suffix (strL "/meta") [strL "a.json"]
        (.list [strL ".json", strL "n"]) =
      .error (.ambiguous (.list [strL ".json", strL "n"]) (strL "/meta")) := by
  constructor
  · decide
  · rfl

/-- Whether the Python suffix argument matches a file name: a string matches
through its glob pattern, a list matches when one of its suffixes does, any
other value matches nothing. -/
def argMatches (arg : SuffixArg) (f : List Char) : Bool :=
  match arg with
  | .str s => globMatch s f
  | .list ls => ls.any fun s => globMatch s f
  | .other => false

/-- Every candidate comes from the directory listing and matches the suffix
argument. -/
theorem mem_candidate_files (files : List (List Char)) (arg : SuffixArg)
    (f : List Char) (hf : f ∈ candidate_files files arg) :
    f ∈ files ∧ argMatches arg f = true := by
  cases arg with
  | str s =>
    have := List.mem_filter.mp hf
    exact ⟨this.1, this.2⟩
  | list ls =>
    rcases List.mem_flatMap.mp hf with ⟨s, hs, hfs⟩
    have := List.mem_filter.mp hfs
    exact ⟨this.1, List.any_eq_true.mpr ⟨s, hs, this.2⟩⟩
  | other => cases hf

/-- In a duplicate-free list, the filtered sublist has length one exactly when
there is a unique element satisfying the predicate. -/
theorem length_filter_eq_one_iff (l : List (List Char)) (p : List Char → Bool)
    (hl : l.Nodup) :
    (l.filter p).length = 1 ↔
      ∃ f ∈ l, p f = true ∧ ∀ g ∈ l, p g = true → g = f := by
  constructor
  · intro h
    rcases List.length_eq_one.mp h with ⟨f, hf⟩
    have hfm := List.mem_filter.mp (hf ▸ List.mem_singleton_self f)
    refine ⟨f, hfm.1, hfm.2, fun g hg hpg => ?_⟩
    have : g ∈ l.filter p := List.mem_filter.mpr ⟨hg, hpg⟩
    rw [hf] at this
    exact List.mem_singleton.mp this
  · intro h
    induction l with
    | nil => rcases h with ⟨f, hf, _⟩; cases hf
    | cons x t ih =>
      rcases h with ⟨f, hfl, hpf, huniq⟩
      have hnx : x ∉ t := (List.nodup_cons.mp hl).1
      have hnt : t.Nodup := (List.nodup_cons.mp hl).2
      by_cases hpx : p x = true
      · have hxf : x = f := huniq x (List.mem_cons_self _ _) hpx
        subst hxf
        have hft : t.filter p = [] := by
          rw [List.filter_eq_nil_iff]
          intro g hg hpg
          exact hnx ((huniq g (List.mem_cons_of_mem _ hg) hpg) ▸ hg)
        simp [List.filter_cons, hpx, hft]
      · have hft : f ∈ t := by
          rcases List.mem_cons.mp hfl with rfl | hft
          · exact absurd hpf hpx
          · exact hft
        have := ih hnt ⟨f, hft, hpf, fun g hg hpg =>
          huniq g (List.mem_cons_of_mem _ hg) hpg⟩
        simp [List.filter_cons, hpx, this]

/-- C4 amended.  The File Matcher returns a file exactly when the candidate
list has length one, where a file is collected as a candidate once per listed
suffix whose glob pattern it matches; zero candidates raise the "not found"
error and more than one candidate raises the "ambiguous" error.  Any returned
file belongs to the directory and matches the suffix argument, and for a
string suffix over a duplicate-free directory, success is equivalent to a
unique glob-matching file. -/
theorem get_single_file_characterization (directory : List Char)
    (files : List (List Char)) (arg : SuffixArg) :
    (∀ f, get_single_file_with_suffix directory files arg = .ok f →
      f ∈ files ∧ argMatches arg f = true) ∧
    (get_single_file_with_suffix directory files arg =
        .error (.notFound arg directory) ↔
      (candidate_files files arg).length = 0) ∧
    (get_single_file_with_suffix directory files arg =
        .error (.ambiguous arg directory) ↔
      1 < (candidate_files files arg).length) ∧
    ((∃ f, get_single_file_with_suffix directory files arg = .ok f) ↔
      (candidate_files files arg).length = 1) ∧
    (∀ s, arg = .str s → files.Nodup →
      ((∃ f, get_single_file_with_suffix directory files arg = .ok f) ↔
        ∃ f ∈ files, globMatch s f = true ∧
          ∀ g ∈ files, globMatch s g = true → g = f)) := by
  have hok : ∀ f, get_single_file_with_suffix directory files arg = .ok f →
      f ∈ files ∧ argMatches arg f = true := by
    intro f hf
    unfold get_single_file_with_suffix at hf
    by_cases h1 : (candidate_files files arg).length > 1
    · rw [if_pos h1] at hf; cases hf
    · rw [if_neg h1] at hf
      by_cases h0 : (candidate_files files arg).length = 0
      · rw [if_pos h0] at hf; cases hf
      · rw [if_neg h0] at hf
        have hmem : (candidate_files files arg).headD [] ∈ candidate_files files arg := by
          cases hcand : candidate_files files arg with
          | nil => rw [hcand] at h0; exact absurd rfl h0
          | cons a t => exact List.mem_cons_self _ _
        have := mem_candidate_files files arg _ hmem
        cases hf
        exact this
  have hcases : ∀ n, (candidate_files files arg).length = n →
      (n = 0 → get_single_file_with_suffix directory files arg =
        .error (.notFound arg directory)) ∧
      (n = 1 → get_single_file_with_suffix directory files arg =
        .ok ((candidate_files files arg).headD [])) ∧
      (1 < n → get_single_file_with_suffix directory files arg =
        .error (.ambiguous arg directory)) := by
    intro n hn
    unfold get_single_file_with_suffix
    refine ⟨fun h0 => ?_, fun h1 => ?_, fun h2 => ?_⟩
    · rw [if_neg (by omega), if_pos (by omega)]
    · rw [if_neg (by omega), if_neg (by omega)]
    · rw [if_pos (by omega)]
  have hmain := hcases _ rfl
  refine ⟨hok, ?_, ?_, ?_, ?_⟩
  · constructor
    · intro h
      by_contra h0
      rcases Nat.lt_or_ge 1 (candidate_files files arg).length with h2 | h2
      · rw [hmain.2.2 h2] at h; cases h
      · have h1 : (candidate_files files arg).length = 1 := by omega
        rw [hmain.2.1 h1] at h; cases h
    · intro h0
      exact hmain.1 h0
  · constructor
    · intro h
      by_contra h2
      rcases Nat.lt_or_ge 1 (candidate_files files arg).length with h2' | h2'
      · exact h2 h2'
      · by_cases h0 : (candidate_files files arg).length = 0
        · rw [hmain.1 h0] at h; cases h
        · have h1 : (candidate_files files arg).length = 1 := by omega
          rw [hmain.2.1 h1] at h; cases h
    · intro h2
      exact hmain.2.2 h2
  · constructor
    · rintro ⟨f, hf⟩
      by_contra h1
      rcases Nat.lt_or_ge 1 (candidate_files files arg).length with h2 | h2
      · rw [hmain.2.2 h2] at hf; cases hf
      · have h0 : (candidate_files files arg).length = 0 := by omega
        rw [hmain.1 h0] at hf; cases hf
    · intro h1
      exact ⟨_, hmain.2.1 h1⟩
  · rintro s rfl hnodup
    have hcand : candidate_files files (.str s) = files.filter (globMatch s) := rfl
    constructor
    · rintro ⟨f, hf⟩
      have h1 : (candidate_files files (.str s)).length = 1 := by
        by_contra h1
        rcases Nat.lt_or_ge 1 (candidate_files files (.str s)).length with h2 | h2
        · rw [hmain.2.2 h2] at hf; cases hf
        · have h0 : (candidate_files files (.str s)).length = 0 := by omega
          rw [hmain.1 h0] at hf; cases hf
      rw [hcand] at h1
      exact (length_filter_eq_one_iff files (globMatch s) hnodup).mp h1
    · intro h
      have h1 : (candidate_files files (.str s)).length = 1 := by
        rw [hcand]
        exact (length_filter_eq_one_iff files (globMatch s) hnodup).mpr h
      exact ⟨_, hmain.2.1 h1⟩

/-- Witness for the amended C4: with the single file `a.vott` and string
suffix `.vott`, the matcher returns `a.vott`. -/
theorem get_single_file_characterization_witness :
    get_single_file_with_suffix (strL "/meta") [strL "a.vott", strL "b.txt"]
        (.str (strL ".vott")) = .ok (strL "a.vott") ∧
    strL "a.vott" ∈ [strL "a.vott", strL "b.txt"] ∧
    argMatches (.str (strL ".vott")) (strL "a.vott") = true := by
  have h := (get_single_file_characterization (strL "/meta")
    [strL "a.vott", strL "b.txt"] (.str (strL ".vott"))).1
  have hres : get_single_file_with_suffix (strL "/meta")
      [strL "a.vott", strL "b.txt"] (.str (strL ".vott")) = .ok (strL "a.vott") := by
    rfl
  exact ⟨hres, h _ hres⟩

/-! ## Claim C1: the identifier loop of Pass 2 -/

/-- C1 counterexample.  Take the mapping
`aa…a → bb…b, bb…b → cc…c` (32-character identifiers) and the line `aa…a`.
The first entry substitutes `bb…b`; the claim says the occurrence of the old
identifier `bb…b` — which appears only inside that just-substituted text —
is not replaced, so the line would end as `bb…b`.  The code's loop replaces
it again and produces `cc…c`. -/
theorem replaceIds_reprocesses :
    replaceIds
        [(List.replicate 32 'a', List.replicate 32 'b'),
         (List.replicate 32 'b', List.replicate 32 'c')]
        (List.replicate 32 'a') = List.replicate 32 'c' ∧
    (List.replicate 32 'c' : List Char) ≠ List.replicate 32 'b' := by
  constructor
  · decide
  · decide

/-- C1 amended.  The per-line identifier loop applies the mapping entries
sequentially, each entry replacing the occurrences of its old identifier in
the line as rewritten by the earlier entries; consequently, for a two-entry
mapping, a line consisting of the first old identifier becomes the first new
identifier with the second entry then applied to it — in particular, when the
first entry's new identifier is exactly the second entry's old identifier,
the ultimately substituted text is the second entry's new identifier
(already-substituted text is re-processed). -/
theorem replaceIds_sequential (a x b y line : List Char)
    (ha : a ≠ []) (hb : b ≠ []) :
    replaceIds [(a, x), (b, y)] line = replaceAll b y (replaceAll a x line) ∧
    replaceIds [(a, x), (b, y)] a = replaceAll b y x ∧
    (x = b → replaceIds [(a, x), (b, y)] a = y) := by
  have hseq : replaceIds [(a, x), (b, y)] line =
      replaceAll b y (replaceAll a x line) := rfl
  have hline : replaceIds [(a, x), (b, y)] a = replaceAll b y x := by
    show replaceAll b y (replaceAll a x a) = replaceAll b y x
    rw [replaceAll_self a x ha]
  refine ⟨hseq, hline, fun hxb => ?_⟩
  rw [hline, hxb, replaceAll_self b y hb]

/-- Witness for the amended C1: with mapping `q → r, r → s`, the line `q`
ends as `s`. -/
theorem replaceIds_sequential_witness :
    replaceIds [(['q'], ['r']), (['r'], ['s'])] ['q'] = ['s'] :=
  (replaceIds_sequential ['q'] ['r'] ['r'] ['s'] ['q']
    (by decide) (by decide)).2.2 rfl

/-! ## Claim C2: Pass 1 file selection and renaming -/

/-- The spec's `<32-hex-chars>` pattern: exactly 32 lowercase hexadecimal
characters.  (Stated from the spec to compare against the code's behavior;
the code itself never checks this.) -/
def specHex32 (s : List Char) : Bool :=
  s.length == 32 && s.all fun c => c.isDigit || ('a' ≤ c && c ≤ 'f')

/-- C2 counterexample.  The glob pattern of Pass 1 is `*-asset.json`, not
`<32-hex>-asset.json`: the file `foo-asset.json`, whose leading segment `foo`
is not 32 hex characters, is nevertheless processed and renamed, so "files
not matching the 32-hex pattern are not processed" fails. -/
theorem pass1_processes_non_hex :
    pass1 [(strL "foo", strL "bar")] [strL "foo-asset.json"] =
      .ok [strL "bar-asset.json"] ∧
    specHex32 (strL "foo") = false ∧
    strL "bar-asset.json" ≠ strL "foo-asset.json" := by
  refine ⟨rfl, rfl, by decide⟩

/-- The new name Pass 1 gives a directory entry: entries matching
`*-asset.json` become `<mapped id>-asset.json`, others keep their name. -/
def renameOf (m : List (List Char × List Char)) (g : List Char) : List Char :=
  if globMatch (strL "-asset.json") g then
    ((alookup m (idOf g)).getD []) ++ strL "-asset.json"
  else g

/-- A `takeWhile` walks through a block whose characters all satisfy the
predicate. -/
theorem takeWhile_append_all (p : Char → Bool) (l1 l2 : List Char)
    (h : ∀ c ∈ l1, p c = true) :
    (l1 ++ l2).takeWhile p = l1 ++ l2.takeWhile p := by
  induction l1 with
  | nil => simp
  | cons c t ih =>
    rw [List.cons_append, List.takeWhile_cons, if_pos (h c (List.mem_cons_self _ _)),
      ih fun d hd => h d (List.mem_cons_of_mem _ hd), List.cons_append]

/-- The id segment of `<old>-asset.json` is `old` when `old` contains no
dash. -/
theorem idOf_append_asset (old : List Char) (h : ∀ c ∈ old, c ≠ '-') :
    idOf (old ++ strL "-asset.json") = old := by
  unfold idOf
  rw [takeWhile_append_all _ old _ (by
    intro c hc
    simp [h c hc])]
  have h2 : List.takeWhile (fun c => decide (¬ c = '-')) (strL "-asset.json") = [] := rfl
  rw [h2, List.append_nil]

/-- A name `<old>-asset.json` matches the glob `*-asset.json` when `old` is
non-empty and does not start with a dot. -/
theorem globMatch_asset (old : List Char) (hne : old ≠ [])
    (hdot : old.head? ≠ some '.') :
    globMatch (strL "-asset.json") (old ++ strL "-asset.json") = true := by
  unfold globMatch
  have hsuf : strL "-asset.json" <:+ old ++ strL "-asset.json" :=
    List.suffix_append _ _
  have hhead : (old ++ strL "-asset.json").head? = old.head? := by
    cases old with
    | nil => exact absurd rfl hne
    | cons c t => rfl
  simp [hsuf, hhead, hdot]

/-- When every matching entry has a mapping, Pass 1 succeeds and renames
entry-wise. -/
theorem pass1_ok (m : List (List Char × List Char)) (files : List (List Char))
    (hall : ∀ g ∈ files, globMatch (strL "-asset.json") g = true →
      (alookup m (idOf g)).isSome = true) :
    pass1 m files = .ok (files.map (renameOf m)) := by
  induction files with
  | nil => rfl
  | cons f fs ih =>
    have ihh := ih fun g hg => hall g (List.mem_cons_of_mem _ hg)
    by_cases hm : globMatch (strL "-asset.json") f = true
    · have hsome := hall f (List.mem_cons_self _ _) hm
      cases hl : alookup m (idOf f) with
      | none => rw [hl] at hsome; cases hsome
      | some nid =>
        show pass1 m (f :: fs) = _
        unfold pass1
        rw [if_pos hm, hl, ihh]
        simp [renameOf, hm, hl, Except.map]
    · show pass1 m (f :: fs) = _
      unfold pass1
      rw [if_neg hm, ihh]
      simp [renameOf, hm, Except.map]

/-- A matching entry without a mapping entry makes Pass 1 fail. -/
theorem pass1_err (m : List (List Char × List Char)) (files : List (List Char))
    (g : List Char) (hg : g ∈ files)
    (hm : globMatch (strL "-asset.json") g = true)
    (hl : alookup m (idOf g) = none) :
    ∃ e, pass1 m files = .error e := by
  induction files with
  | nil => cases hg
  | cons f fs ih =>
    by_cases hmf : globMatch (strL "-asset.json") f = true
    · cases hlf : alookup m (idOf f) with
      | none =>
        refine ⟨.keyError (idOf f), ?_⟩
        unfold pass1
        rw [if_pos hmf, hlf]
      | some nid =>
        have hgfs : g ∈ fs := by
          rcases List.mem_cons.mp hg with rfl | hgfs
          · rw [hlf] at hl; cases hl
          · exact hgfs
        rcases ih hgfs with ⟨e, he⟩
        refine ⟨e, ?_⟩
        unfold pass1
        rw [if_pos hmf, hlf, he]
        rfl
    · have hgfs : g ∈ fs := by
        rcases List.mem_cons.mp hg with rfl | hgfs
        · exact absurd hm hmf
        · exact hgfs
      rcases ih hgfs with ⟨e, he⟩
      refine ⟨e, ?_⟩
      unfold pass1
      rw [if_neg hmf, he]
      rfl

/-- C2 amended.  Pass 1 processes exactly the files matching the glob
`*-asset.json`; the segment of the name before the first dash — for a
`<32-hex>-asset.json` file, the 32-hex segment — is the old identifier; a
missing mapping entry for any such file is a fatal error, and otherwise every
`<old>-asset.json` whose identifier maps to `new` is renamed so that
afterwards `<new>-asset.json` exists and `<old>-asset.json` does not, while
non-matching files are untouched. -/
theorem pass1_renames (m : List (List Char × List Char))
    (files : List (List Char)) (old new : List Char)
    (hmem : (old ++ strL "-asset.json") ∈ files)
    (hlook : alookup m old = some new)
    (hdash : ∀ c ∈ old, c ≠ '-')
    (hne : old ≠ []) (hdot : old.head? ≠ some '.')
    (hall : ∀ g ∈ files, globMatch (strL "-asset.json") g = true →
      (alookup m (idOf g)).isSome = true)
    (hnotold : ∀ g ∈ files, globMatch (strL "-asset.json") g = true →
      ∀ n, alookup m (idOf g) = some n → n ≠ old) :
    (∃ files', pass1 m files = .ok files' ∧
      (new ++ strL "-asset.json") ∈ files' ∧
      (old ++ strL "-asset.json") ∉ files' ∧
      ∀ g ∈ files, globMatch (strL "-asset.json") g = false → g ∈ files') ∧
    (∀ m' fs' g, g ∈ fs' → globMatch (strL "-asset.json") g = true →
      alookup m' (idOf g) = none → ∃ e, pass1 m' fs' = .error e) := by
  have hid : idOf (old ++ strL "-asset.json") = old := idOf_append_asset old hdash
  have hmatch : globMatch (strL "-asset.json") (old ++ strL "-asset.json") = true :=
    globMatch_asset old hne hdot
  refine ⟨⟨files.map (renameOf m), pass1_ok m files hall, ?_, ?_, ?_⟩,
    fun m' fs' g hg hm hl => pass1_err m' fs' g hg hm hl⟩
  · refine List.mem_map.mpr ⟨old ++ strL "-asset.json", hmem, ?_⟩
    rw [renameOf, if_pos hmatch, hid, hlook]
    rfl
  · intro hcontra
    rcases List.mem_map.mp hcontra with ⟨g, hgmem, hgeq⟩
    by_cases hmg : globMatch (strL "-asset.json") g = true
    · rcases Option.isSome_iff_exists.mp (hall g hgmem hmg) with ⟨n, hn⟩
      rw [renameOf, if_pos hmg, hn] at hgeq
      have : n = old := List.append_cancel_right (hgeq : n ++ strL "-asset.json" = old ++ strL "-asset.json")
      exact hnotold g hgmem hmg n hn this
    · rw [renameOf, if_neg hmg] at hgeq
      rw [hgeq] at hmg
      exact hmg hmatch
  · intro g hgmem hmg
    refine List.mem_map.mpr ⟨g, hgmem, ?_⟩
    rw [renameOf, if_neg (by rw [hmg]; exact Bool.false_ne_true)]

/-- Witness for the amended C2 at a concrete directory and mapping. -/
theorem pass1_renames_witness :
    (∃ files',
      pass1 [(strL "id1", strL "id2")]
        [strL "id1-asset.json", strL "readme.txt"] = .ok files' ∧
      (strL "id2" ++ strL "-asset.json") ∈ files' ∧
      (strL "id1" ++ strL "-asset.json") ∉ files' ∧
      ∀ g ∈ [strL "id1-asset.json", strL "readme.txt"],
        globMatch (strL "-asset.json") g = false → g ∈ files') ∧
    (∀ m' fs' g, g ∈ fs' → globMatch (strL "-asset.json") g = true →
      alookup m' (idOf g) = none → ∃ e, pass1 m' fs' = .error e) := by
  have h := pass1_renames [(strL "id1", strL "id2")]
    [strL "id1-asset.json", strL "readme.txt"] (strL "id1") (strL "id2")
    (by decide) (by decide) (by decide) (by decide) (by decide)
    (by decide) (by decide)
  exact h

/-! ## MD5 validation

Two closed test vectors checking the MD5 embedding: the RFC 1321 vector for
`"abc"`, and the spec's concrete scenario path. -/

set_option maxRecDepth 8000 in
/-- RFC 1321 test vector: `md5('abc')`. -/
theorem md5_rfc_vector_abc :
    md5hex (utf8Encode (strL "abc")) = strL "900150983cd24fb0d6963f7d28e17f72" := by
  rfl

set_option maxRecDepth 8000 in
/-- The spec's concrete scenario: the digest of `file:/data/imgs/cat.jpg` is
deterministic and reproducible. -/
theorem md5_scenario_vector :
    md5hex (utf8Encode (strL "file:/data/imgs/cat.jpg")) =
      strL "e38d7cbea47d2b337b23112e6448bae5" := by
  rfl

/-! ## Claim C3: the Identifier Mapper -/

/-- Python `posixpath.join` inserts exactly one separator when the directory is
non-empty and does not end with `/` and the name does not start with `/`. -/
theorem posixJoin_sep (a b : List Char) (ha0 : a ≠ [])
    (haS : a.getLast? ≠ some '/') (hb : b.head? ≠ some '/') :
    posixJoin a b = a ++ '/' :: b := by
  rw [posixJoin, if_neg hb, if_neg]
  rintro (rfl | h)
  · exact ha0 rfl
  · exact haS h

/-- Folding Python dict assignments over fresh keys appends the new entries
in order. -/
theorem foldl_dictInsert (assets : List VottAsset) (dig : VottAsset → List Char)
    (acc : List (List Char × List Char))
    (hnodup : (assets.map VottAsset.id).Nodup)
    (hacc : ∀ a ∈ assets, ∀ p ∈ acc, p.1 ≠ a.id) :
    assets.foldl (fun d asset => dictInsert d asset.id (dig asset)) acc =
      acc ++ assets.map fun asset => (asset.id, dig asset) := by
  induction assets generalizing acc with
  | nil => simp
  | cons a t ih =>
    have hins : dictInsert acc a.id (dig a) = acc ++ [(a.id, dig a)] := by
      rw [dictInsert, if_neg]
      intro hany
      rcases List.any_eq_true.mp hany with ⟨p, hp, hpk⟩
      exact hacc a (List.mem_cons_self _ _) p hp (by simpa using hpk)
    have hnt : (t.map VottAsset.id).Nodup := (List.nodup_cons.mp (by simpa using hnodup)).2
    have hna : a.id ∉ t.map VottAsset.id := (List.nodup_cons.mp (by simpa using hnodup)).1
    have hacc2 : ∀ b ∈ t, ∀ p ∈ acc ++ [(a.id, dig a)], p.1 ≠ b.id := by
      intro b hb p hp
      rcases List.mem_append.mp hp with hpacc | hpnew
      · exact hacc b (List.mem_cons_of_mem _ hb) p hpacc
      · have hpe : p = (a.id, dig a) := List.mem_singleton.mp hpnew
        rw [hpe]
        intro hcontra
        have hc2 : a.id = b.id := hcontra
        exact hna (by rw [hc2]; exact List.mem_map_of_mem VottAsset.id hb)
    rw [List.foldl_cons, hins, ih (acc ++ [(a.id, dig a)]) hnt hacc2]
    simp

/-- Under distinct manifest ids, the Identifier Mapper is entry-wise the list
of `(old id, digest of candidate path)` pairs. -/
theorem mapper_eq (vd : VottDict) (dir : List Char)
    (hids : (vd.assets.map VottAsset.id).Nodup) :
    map_old_vott_path_and_id_to_new vd dir =
      vd.assets.map fun asset =>
        (asset.id, md5hex (utf8Encode (source_asset_path dir asset.name))) := by
  unfold map_old_vott_path_and_id_to_new
  rw [foldl_dictInsert _ _ [] hids (by intro a _ p hp; cases hp)]
  simp

/-- Looking up an asset's id in the entry-wise mapping returns its digest. -/
theorem alookup_map (assets : List VottAsset) (dig : VottAsset → List Char)
    (a : VottAsset) (ha : a ∈ assets)
    (hids : (assets.map VottAsset.id).Nodup) :
    alookup (assets.map fun x => (x.id, dig x)) a.id = some (dig a) := by
  induction assets with
  | nil => cases ha
  | cons b t ih =>
    have hnt : (t.map VottAsset.id).Nodup := (List.nodup_cons.mp (by simpa using hids)).2
    have hnb : b.id ∉ t.map VottAsset.id := (List.nodup_cons.mp (by simpa using hids)).1
    rw [List.map_cons]
    show (if b.id = a.id then some (dig b) else alookup _ a.id) = some (dig a)
    by_cases hid : b.id = a.id
    · rcases List.mem_cons.mp ha with rfl | hat
      · rw [if_pos hid]
      · exact absurd (hid ▸ List.mem_map_of_mem VottAsset.id hat) hnb
    · have hat : a ∈ t := by
        rcases List.mem_cons.mp ha with rfl | hat
        · exact absurd rfl hid
        · exact hat
      rw [if_neg hid]
      exact ih hat hnt

/-- The rendering `natLE` produces exactly `k` bytes. -/
theorem natLE_length (k n : Nat) : (natLE k n).length = k := by
  simp [natLE]

/-- The MD5 digest is always 16 bytes. -/
theorem md5Bytes_length (msg : List Nat) : (md5Bytes msg).length = 16 := by
  unfold md5Bytes
  simp [natLE_length]

/-- Hex rendering produces two characters per byte. -/
theorem hexOfBytes_length (bs : List Nat) :
    (hexOfBytes bs).length = 2 * bs.length := by
  induction bs with
  | nil => rfl
  | cons b t ih =>
    simp only [hexOfBytes, List.flatMap_cons] at *
    simp [ih]
    omega

/-- The hexdigest has 32 characters. -/
theorem md5hex_length (msg : List Nat) : (md5hex msg).length = 32 := by
  rw [md5hex, hexOfBytes_length, md5Bytes_length]

/-- Each character below 16 renders as a lowercase hex character. -/
theorem hexDigitChar_lower : ∀ d, d < 16 →
    ((hexDigitChar d).isDigit ||
      (decide ('a' ≤ hexDigitChar d) && decide (hexDigitChar d ≤ 'f'))) = true := by
  decide

/-- Every character of a hexdigest is a lowercase hex character. -/
theorem md5hex_chars (msg : List Nat) :
    ∀ c ∈ md5hex msg,
      (c.isDigit || (decide ('a' ≤ c) && decide (c ≤ 'f'))) = true := by
  intro c hc
  rw [md5hex, hexOfBytes] at hc
  rcases List.mem_flatMap.mp hc with ⟨b, _, hcb⟩
  have h16 : ∀ x : Nat, x % 16 < 16 := fun x => Nat.mod_lt _ (by omega)
  rcases List.mem_cons.mp hcb with rfl | hcb2
  · exact hexDigitChar_lower _ (h16 _)
  · rcases List.mem_cons.mp hcb2 with rfl | h
    · exact hexDigitChar_lower _ (h16 _)
    · cases h

/-- C3.  For every asset record, the Identifier Mapper maps the asset's old
id to the 32-lowercase-hex rendering of the 16-byte MD5 digest of the UTF-8
encoding of `'file:' + join(new_source_directory, asset.name)`, with the
directory and the name joined by exactly one separator (given a non-empty
directory with no trailing `/` and names with no leading `/`); it produces
one entry per asset, the total number of entries being the number of assets. -/
theorem mapper_spec (vd : VottDict) (dir : List Char)
    (hids : (vd.assets.map VottAsset.id).Nodup)
    (hdir0 : dir ≠ []) (hdirS : dir.getLast? ≠ some '/')
    (hnames : ∀ a ∈ vd.assets, a.name.head? ≠ some '/') :
    (map_old_vott_path_and_id_to_new vd dir).length = vd.assets.length ∧
    (∀ a ∈ vd.assets, source_asset_path dir a.name = strL "file:" ++ dir ++ '/' :: a.name) ∧
    (∀ a ∈ vd.assets,
      alookup (map_old_vott_path_and_id_to_new vd dir) a.id =
        some (md5hex (utf8Encode (strL "file:" ++ dir ++ '/' :: a.name)))) ∧
    (∀ p ∈ map_old_vott_path_and_id_to_new vd dir,
      ∃ a ∈ vd.assets, p.1 = a.id ∧
        p.2 = hexOfBytes (md5Bytes (utf8Encode (source_asset_path dir a.name))) ∧
        (md5Bytes (utf8Encode (source_asset_path dir a.name))).length = 16 ∧
        p.2.length = 32 ∧
        ∀ c ∈ p.2, (c.isDigit || (decide ('a' ≤ c) && decide (c ≤ 'f'))) = true) := by
  have hpath : ∀ a ∈ vd.assets,
      source_asset_path dir a.name = strL "file:" ++ dir ++ '/' :: a.name := by
    intro a ha
    rw [source_asset_path, posixJoin_sep dir a.name hdir0 hdirS (hnames a ha)]
    simp [List.append_assoc]
  refine ⟨?_, hpath, ?_, ?_⟩
  · rw [mapper_eq vd dir hids, List.length_map]
  · intro a ha
    rw [mapper_eq vd dir hids, alookup_map vd.assets _ a ha hids, hpath a ha]
  · intro p hp
    rw [mapper_eq vd dir hids] at hp
    rcases List.mem_map.mp hp with ⟨a, ha, rfl⟩
    exact ⟨a, ha, rfl, rfl, md5Bytes_length _, md5hex_length _, md5hex_chars _⟩

/-- Witness for C3 at the spec's concrete one-asset scenario. -/
theorem mapper_spec_witness :
    alookup
        (map_old_vott_path_and_id_to_new
          ⟨[⟨strL "aaaaaaaaaaaaaaaaaaaaaaaaaaaaaaaa", strL "cat.jpg",
             strL "file:/home/alice/imgs/cat.jpg"⟩]⟩ (strL "/data/imgs"))
        (strL "aaaaaaaaaaaaaaaaaaaaaaaaaaaaaaaa") =
      some (md5hex (utf8Encode
        (strL "file:" ++ strL "/data/imgs" ++ '/' :: strL "cat.jpg"))) := by
  have h := mapper_spec
    ⟨[⟨strL "aaaaaaaaaaaaaaaaaaaaaaaaaaaaaaaa", strL "cat.jpg",
       strL "file:/home/alice/imgs/cat.jpg"⟩]⟩ (strL "/data/imgs")
    (by decide) (by decide) (by decide) (by decide)
  exact h.2.2.1 _ (List.mem_singleton_self _)

/-! ## Claim C5: distinctness of the computed new identifiers

The mapper's values are MD5 digests; MD5 maps infinitely many candidate
paths into the 16^32 possible hexdigests, so by pigeonhole some two distinct
asset names share a digest.  The machinery below extracts a concrete-typed
collision witness nonconstructively. -/

/-- The numeric value of a lowercase hex character. -/
def hexVal (c : Char) : Nat :=
  if 97 ≤ c.toNat then c.toNat - 87 else c.toNat - 48

/-- The value map `hexVal` inverts `hexDigitChar` below 16. -/
theorem hexVal_hexDigitChar : ∀ d, d < 16 → hexVal (hexDigitChar d) = d := by
  decide

/-- Rendering bytes to hex is mapping `hexDigitChar` over the digit list. -/
theorem hexOfBytes_eq_map (bs : List Nat) :
    hexOfBytes bs = (bs.flatMap fun b => [b / 16 % 16, b % 16]).map hexDigitChar := by
  induction bs with
  | nil => rfl
  | cons b t ih =>
    have hh : hexOfBytes (b :: t) =
        [hexDigitChar (b / 16 % 16), hexDigitChar (b % 16)] ++ hexOfBytes t := rfl
    rw [hh, ih, List.flatMap_cons, List.map_append]
    rfl

/-- Length of a two-entries-per-element `flatMap`. -/
theorem flatMap_pair_length (g1 g2 : Nat → Nat) (bs : List Nat) :
    (bs.flatMap fun b => [g1 b, g2 b]).length = 2 * bs.length := by
  induction bs with
  | nil => rfl
  | cons b t ih =>
    simp only [List.flatMap_cons, List.length_append, List.length_cons,
      List.length_nil, ih]
    omega

/-- Every hexdigest is `hexDigitChar` mapped over 32 digits below 16. -/
theorem md5hex_shape (msg : List Nat) :
    ∃ ds : List Nat, md5hex msg = ds.map hexDigitChar ∧ ds.length = 32 ∧
      ∀ d ∈ ds, d < 16 := by
  refine ⟨(md5Bytes msg).flatMap fun b => [b / 16 % 16, b % 16],
    by rw [md5hex, hexOfBytes_eq_map], ?_, ?_⟩
  · rw [flatMap_pair_length, md5Bytes_length]
  · intro d hd
    rcases List.mem_flatMap.mp hd with ⟨b, _, hdb⟩
    rcases List.mem_cons.mp hdb with rfl | hdb2
    · exact Nat.mod_lt _ (by omega)
    · rcases List.mem_cons.mp hdb2 with rfl | h
      · exact Nat.mod_lt _ (by omega)
      · cases h

/-- The base-16 value of a digit list. -/
def hexListVal (l : List Nat) : Nat :=
  l.foldl (fun acc d => acc * 16 + d) 0

/-- Shifting the accumulator out of a base-16 fold. -/
theorem foldl_hex_shift (l : List Nat) (acc : Nat) :
    l.foldl (fun acc d => acc * 16 + d) acc =
      acc * 16 ^ l.length + l.foldl (fun a d => a * 16 + d) 0 := by
  induction l generalizing acc with
  | nil => simp
  | cons d t ih =>
    rw [List.foldl_cons, ih (acc * 16 + d), List.foldl_cons,
      ih (0 * 16 + d)]
    simp [List.length_cons, Nat.pow_succ]
    ring

/-- The base-16 value of bounded digits is bounded. -/
theorem hexListVal_lt (l : List Nat) (h : ∀ d ∈ l, d < 16) :
    hexListVal l < 16 ^ l.length := by
  induction l with
  | nil => simp [hexListVal]
  | cons d t ih =>
    have hd : d < 16 := h d (List.mem_cons_self _ _)
    have ht := ih fun x hx => h x (List.mem_cons_of_mem _ hx)
    rw [hexListVal, List.foldl_cons, foldl_hex_shift]
    rw [hexListVal] at ht
    have : (0 * 16 + d) * 16 ^ t.length + t.foldl (fun a d => a * 16 + d) 0 <
        (d + 1) * 16 ^ t.length := by
      simp only [Nat.zero_mul, Nat.zero_add, Nat.add_mul, Nat.one_mul]
      omega
    calc (0 * 16 + d) * 16 ^ t.length + t.foldl (fun a d => a * 16 + d) 0
        < (d + 1) * 16 ^ t.length := this
      _ ≤ 16 * 16 ^ t.length := Nat.mul_le_mul_right _ (by omega)
      _ = 16 ^ (d :: t).length := by rw [List.length_cons, Nat.pow_succ]; ring

/-- Equal-length bounded digit lists with equal base-16 values are equal. -/
theorem hexListVal_inj (l1 l2 : List Nat) (hlen : l1.length = l2.length)
    (h1 : ∀ d ∈ l1, d < 16) (h2 : ∀ d ∈ l2, d < 16)
    (heq : hexListVal l1 = hexListVal l2) : l1 = l2 := by
  induction l1 generalizing l2 with
  | nil =>
    cases l2 with
    | nil => rfl
    | cons d t => cases hlen
  | cons d1 t1 ih =>
    cases l2 with
    | nil => cases hlen
    | cons d2 t2 =>
      have hlent : t1.length = t2.length := by
        simpa using hlen
      have hv1 : hexListVal (d1 :: t1) = d1 * 16 ^ t1.length + hexListVal t1 := by
        rw [hexListVal, List.foldl_cons, foldl_hex_shift]
        simp [hexListVal]
      have hv2 : hexListVal (d2 :: t2) = d2 * 16 ^ t2.length + hexListVal t2 := by
        rw [hexListVal, List.foldl_cons, foldl_hex_shift]
        simp [hexListVal]
      have hb1 : hexListVal t1 < 16 ^ t1.length :=
        hexListVal_lt t1 fun x hx => h1 x (List.mem_cons_of_mem _ hx)
      have hb2 : hexListVal t2 < 16 ^ t2.length :=
        hexListVal_lt t2 fun x hx => h2 x (List.mem_cons_of_mem _ hx)
      rw [hv1, hv2, hlent] at heq
      have hB : 0 < 16 ^ t2.length := Nat.pos_pow_of_pos _ (by omega)
      have hb1' : hexListVal t1 < 16 ^ t2.length := hlent ▸ hb1
      have hd : d1 = d2 := by
        have e1 : (d1 * 16 ^ t2.length + hexListVal t1) / 16 ^ t2.length = d1 := by
          rw [Nat.mul_comm d1, Nat.mul_add_div hB, Nat.div_eq_of_lt hb1']
          omega
        have e2 : (d2 * 16 ^ t2.length + hexListVal t2) / 16 ^ t2.length = d2 := by
          rw [Nat.mul_comm d2, Nat.mul_add_div hB, Nat.div_eq_of_lt hb2]
          omega
        rw [← e1, ← e2, heq]
      subst hd
      have hv : hexListVal t1 = hexListVal t2 := Nat.add_left_cancel heq
      rw [ih t2 hlent (fun x hx => h1 x (List.mem_cons_of_mem _ hx))
        (fun x hx => h2 x (List.mem_cons_of_mem _ hx)) hv]

/-- Equal digest values force equal hexdigests. -/
theorem md5hex_eq_of_val_eq (m1 m2 : List Nat)
    (h : hexListVal ((md5hex m1).map hexVal) = hexListVal ((md5hex m2).map hexVal)) :
    md5hex m1 = md5hex m2 := by
  rcases md5hex_shape m1 with ⟨ds1, he1, hl1, hb1⟩
  rcases md5hex_shape m2 with ⟨ds2, he2, hl2, hb2⟩
  have hr1 : (md5hex m1).map hexVal = ds1 := by
    rw [he1, List.map_map]
    exact List.map_congr_left (fun d hd => hexVal_hexDigitChar d (hb1 d hd)) |>.trans
      (List.map_id ds1)
  have hr2 : (md5hex m2).map hexVal = ds2 := by
    rw [he2, List.map_map]
    exact List.map_congr_left (fun d hd => hexVal_hexDigitChar d (hb2 d hd)) |>.trans
      (List.map_id ds2)
  rw [hr1, hr2] at h
  rw [he1, he2, hexListVal_inj ds1 ds2 (by omega) hb1 hb2 h]

/-- The digest value of a hexdigest is below `16 ^ 32`. -/
theorem md5hex_val_lt (msg : List Nat) :
    hexListVal ((md5hex msg).map hexVal) < 16 ^ 32 := by
  rcases md5hex_shape msg with ⟨ds, he, hl, hb⟩
  have hr : (md5hex msg).map hexVal = ds := by
    rw [he, List.map_map]
    exact List.map_congr_left (fun d hd => hexVal_hexDigitChar d (hb d hd)) |>.trans
      (List.map_id ds)
  rw [hr, ← hl]
  exact hexListVal_lt ds hb

/-- Pigeonhole: among the `16 ^ 32 + 1` candidate paths built from asset
names `a`, `aa`, `aaa`, …, two distinct names share an MD5 hexdigest. -/
theorem md5_collision_in_paths :
    ∃ i j : Nat, i ≠ j ∧
      md5hex (utf8Encode (source_asset_path (strL "/d") (List.replicate (i + 1) 'a'))) =
        md5hex (utf8Encode (source_asset_path (strL "/d") (List.replicate (j + 1) 'a'))) := by
  have hcard : Fintype.card (Fin (16 ^ 32)) < Fintype.card (Fin (16 ^ 32 + 1)) := by
    rw [Fintype.card_fin, Fintype.card_fin]
    exact Nat.lt_succ_self _
  obtain ⟨i, j, hne, heq⟩ := Fintype.exists_ne_map_eq_of_card_lt
    (fun i : Fin (16 ^ 32 + 1) =>
      (⟨hexListVal ((md5hex (utf8Encode (source_asset_path (strL "/d")
          (List.replicate (i.val + 1) 'a')))).map hexVal),
        md5hex_val_lt _⟩ : Fin (16 ^ 32)))
    hcard
  refine ⟨i.val, j.val, fun h => hne (Fin.ext h), ?_⟩
  exact md5hex_eq_of_val_eq _ _ (congrArg Fin.val heq)

/-- C5 counterexample (negation of the claim).  There exists a manifest with
pairwise-distinct asset names (and ids), and a well-formed source directory
not coinciding with any asset path, for which the Identifier Mapper produces
one entry per asset whose values are **not** pairwise distinct: MD5 maps
infinitely many candidate paths onto finitely many digests, so collisions
exist. -/
theorem mapper_collision_exists :
    ∃ (vd : VottDict) (dir : List Char),
      (vd.assets.map VottAsset.name).Nodup ∧
      (vd.assets.map VottAsset.id).Nodup ∧
      dir ≠ [] ∧ dir.getLast? ≠ some '/' ∧
      (∀ a ∈ vd.assets, a.name.head? ≠ some '/') ∧
      (map_old_vott_path_and_id_to_new vd dir).length = vd.assets.length ∧
      ¬ ((map_old_vott_path_and_id_to_new vd dir).map Prod.snd).Nodup := by
  obtain ⟨i, j, hne, heq⟩ := md5_collision_in_paths
  have hnames : List.replicate (i + 1) 'a' ≠ List.replicate (j + 1) 'a' := by
    intro h
    have := congrArg List.length h
    simp at this
    exact hne this
  refine ⟨⟨[⟨List.replicate (i + 1) 'a', List.replicate (i + 1) 'a', []⟩,
            ⟨List.replicate (j + 1) 'a', List.replicate (j + 1) 'a', []⟩]⟩,
    strL "/d", ?_, ?_, by decide, by decide, ?_, ?_, ?_⟩
  · simp [hnames]
  · simp [hnames]
  · intro a ha
    rcases List.mem_cons.mp ha with rfl | ha2
    · simp [List.replicate_succ]
    · rcases List.mem_cons.mp ha2 with rfl | h
      · simp [List.replicate_succ]
      · cases h
  · have hids : ((⟨[⟨List.replicate (i + 1) 'a', List.replicate (i + 1) 'a', []⟩,
        ⟨List.replicate (j + 1) 'a', List.replicate (j + 1) 'a', []⟩]⟩ :
        VottDict).assets.map VottAsset.id).Nodup := by simp [hnames]
    rw [mapper_eq _ _ hids]
    simp
  · have hids : ((⟨[⟨List.replicate (i + 1) 'a', List.replicate (i + 1) 'a', []⟩,
        ⟨List.replicate (j + 1) 'a', List.replicate (j + 1) 'a', []⟩]⟩ :
        VottDict).assets.map VottAsset.id).Nodup := by simp [hnames]
    rw [mapper_eq _ _ hids]
    simp [heq]

/-- C5 amended.  For a manifest with unique names (and unique ids, a manifest
invariant) and a well-formed source directory, the Identifier Mapper produces
exactly N entries and the N candidate paths are pairwise distinct; the values
are the MD5 digests of those paths and are pairwise distinct *provided* MD5
has no collision among them — hash collisions are possible in principle and
are not handled. -/
theorem mapper_values_distinct (vd : VottDict) (dir : List Char)
    (hnames : (vd.assets.map VottAsset.name).Nodup)
    (hids : (vd.assets.map VottAsset.id).Nodup)
    (hdir0 : dir ≠ []) (hdirS : dir.getLast? ≠ some '/')
    (hheads : ∀ a ∈ vd.assets, a.name.head? ≠ some '/') :
    (map_old_vott_path_and_id_to_new vd dir).length = vd.assets.length ∧
    (vd.assets.map fun a => source_asset_path dir a.name).Nodup ∧
    ((∀ a ∈ vd.assets, ∀ b ∈ vd.assets,
        md5hex (utf8Encode (source_asset_path dir a.name)) =
          md5hex (utf8Encode (source_asset_path dir b.name)) → a.name = b.name) →
      ((map_old_vott_path_and_id_to_new vd dir).map Prod.snd).Nodup) := by
  have hpaths : (vd.assets.map fun a => source_asset_path dir a.name).Nodup := by
    have hrw : (vd.assets.map fun a => source_asset_path dir a.name) =
        (vd.assets.map VottAsset.name).map
          fun n => (strL "file:" ++ dir ++ ['/']) ++ n := by
      rw [List.map_map]
      refine List.map_congr_left fun a ha => ?_
      rw [Function.comp_apply, source_asset_path,
        posixJoin_sep dir a.name hdir0 hdirS (hheads a ha)]
      simp
    rw [hrw]
    exact hnames.map (List.append_right_injective _)
  refine ⟨by rw [mapper_eq vd dir hids, List.length_map], hpaths, fun hcoll => ?_⟩
  have hassets : vd.assets.Nodup := List.Nodup.of_map _ hids
  rw [mapper_eq vd dir hids, List.map_map]
  refine List.Nodup.map_on ?_ hassets
  intro x hx y hy hxy
  have hname : x.name = y.name := by
    apply hcoll x hx y hy
    simpa using hxy
  exact List.inj_on_of_nodup_map hnames hx hy hname

/-- Witness for the amended C5 at a one-asset manifest. -/
theorem mapper_values_distinct_witness :
    (map_old_vott_path_and_id_to_new
        ⟨[⟨strL "1", strL "n.jpg", strL "p"⟩]⟩ (strL "/d")).length = 1 ∧
    ((map_old_vott_path_and_id_to_new
        ⟨[⟨strL "1", strL "n.jpg", strL "p"⟩]⟩ (strL "/d")).map Prod.snd).Nodup := by
  have h := mapper_values_distinct ⟨[⟨strL "1", strL "n.jpg", strL "p"⟩]⟩
    (strL "/d") (by decide) (by decide) (by decide) (by decide) (by decide)
  refine ⟨h.1, h.2.2 ?_⟩
  intro a ha b hb _
  have ha2 : a = ⟨strL "1", strL "n.jpg", strL "p"⟩ := List.mem_singleton.mp ha
  have hb2 : b = ⟨strL "1", strL "n.jpg", strL "p"⟩ := List.mem_singleton.mp hb
  rw [ha2, hb2]

/-- Witness for C7 at a concrete string containing a space. -/
theorem npm_ready_idempotent_witness :
    npm_ready (npm_ready (strL "a b")) = npm_ready (strL "a b") :=
  npm_ready_idempotent (strL "a b")

/-- Witness for C10 at a concrete directory. -/
theorem get_single_file_other_not_found_witness :
    get_single_file_with_suffix (strL "/meta") [strL "x.vott"] .other =
      .error (.notFound .other (strL "/meta")) :=
  (get_single_file_other_not_found (strL "/meta") [strL "x.vott"]).2
